import Mathlib

/-!
Verification of the factor-algebra core of `pgmpy/factors/base.py`:
`factor_product`, `factor_sum_product`, `factor_log_sum` and `factor_divide`
over `BaseFactor` operands.

Factors are embedded as dense arrays: a flat list of rational values in
row-major order over the Cartesian product of the scope's cardinalities,
together with the ordered scope, the cardinality list and the state-name
dictionary, exactly as in the data model of the source.  Python objects
passed to the public functions are embedded as `PyObj`: either a
`BaseFactor` instance carrying a concrete-representation tag, or a
non-factor object.  Python exceptions become the `PyError` type and each
public function returns an `Except PyError` value.

The concrete factor class (`DiscreteFactor`) and the contraction backend
(`opt_einsum.contract`) are external collaborators of this core and are not
part of the translated source file; their embeddings are modelled from the
specification and marked as such in their doc comments.
-/

namespace Pgmpy

abbrev Var := String

abbrev Val := ℚ

/-- Modelled from the spec (data model): a factor holds an ordered scope of
variable identifiers, a cardinality per scope position, a dense row-major
value array over the Cartesian product of the cardinalities and a
state-name dictionary mapping each variable to the ordered labels of its
states.  This is the `DiscreteFactor` representation consumed by the
algorithms of `base.py`. -/
structure Factor where
  «variables» : List Var
  cardinality : List Nat
  values : List Val
  state_names : List (Var × List String)
deriving DecidableEq, Repr

/-- Concrete representation classes a `BaseFactor` instance can have; the
source distinguishes them with `type(...)`. -/
inductive ConcreteType where
  | discreteFactor
  | tabularCPD
deriving DecidableEq, Repr

/-- Embedding of a Python object handed to the public functions: either a
`BaseFactor` instance of some concrete class, or an arbitrary non-factor
object. -/
inductive PyObj where
  | factor (rep : ConcreteType) (f : Factor)
  | nonFactor
deriving DecidableEq, Repr

/-- Embedding of the Python runtime type of an argument, as observed by
`type(...)`. -/
inductive PyType where
  | discreteFactorT
  | tabularCPDT
  | otherT
deriving DecidableEq, Repr

def typeOf : PyObj → PyType
  | PyObj.factor ConcreteType.discreteFactor _ => PyType.discreteFactorT
  | PyObj.factor ConcreteType.tabularCPD _ => PyType.tabularCPDT
  | PyObj.nonFactor => PyType.otherT

/-- Embedding of `isinstance(phi, BaseFactor)`. -/
def isBaseFactor : PyObj → Bool
  | PyObj.factor _ _ => true
  | PyObj.nonFactor => false

/-- Embedding of the Python exceptions raised by the source: `TypeError`,
`NotImplementedError`, `AttributeError`, the backend's `ValueError` and the
dictionary `KeyError`. -/
inductive PyError where
  | typeError (msg : String)
  | notImplementedError (msg : String)
  | attributeError (msg : String)
  | valueError (msg : String)
  | keyError (key : Var)
deriving DecidableEq, Repr

instance {ε α : Type} [DecidableEq ε] [DecidableEq α] : DecidableEq (Except ε α) :=
  fun a b =>
    match a, b with
    | Except.ok x, Except.ok y =>
        if h : x = y then isTrue (by rw [h]) else isFalse (fun hh => h (by cases hh; rfl))
    | Except.error x, Except.error y =>
        if h : x = y then isTrue (by rw [h]) else isFalse (fun hh => h (by cases hh; rfl))
    | Except.ok _, Except.error _ => isFalse (fun hh => Except.noConfusion hh)
    | Except.error _, Except.ok _ => isFalse (fun hh => Except.noConfusion hh)

/-- Factors extracted from a list of Python objects, skipping non-factors. -/
def asFactors (args : List PyObj) : List Factor :=
  args.filterMap (fun o => match o with
    | PyObj.factor _ f => some f
    | PyObj.nonFactor => none)

/-! ### Dense row-major indexing -/

/-- Row-major flat index of an assignment into an array whose axes are the
given (variable, cardinality) pairs. -/
def flatIdx : List (Var × Nat) → (Var → Nat) → Nat
  | [], _ => 0
  | p :: rest, a => a p.1 * (rest.map Prod.snd).prod + flatIdx rest a

def setVar (v : Var) (i : Nat) (a : Var → Nat) : Var → Nat :=
  fun w => if w = v then i else a w

/-- Row-major enumeration of all assignments to the given
(variable, cardinality) pairs; variables outside the pairs are sent to 0. -/
def assignmentsOf : List (Var × Nat) → List (Var → Nat)
  | [] => [fun _ => 0]
  | p :: rest =>
      (List.range p.2).flatMap (fun i => (assignmentsOf rest).map (setVar p.1 i))

/-- Assignment `a` is within bounds for the given (variable, cardinality)
pairs. -/
def boundedOn (pairs : List (Var × Nat)) (a : Var → Nat) : Prop :=
  ∀ p ∈ pairs, a p.1 < p.2

instance (pairs : List (Var × Nat)) (a : Var → Nat) : Decidable (boundedOn pairs a) := by
  unfold boundedOn; infer_instance

/-- Scope paired with cardinalities, in scope order; this is the axis-label
list the source passes to the contraction backend next to the value
array. -/
def Factor.vcPairs (f : Factor) : List (Var × Nat) :=
  f.«variables».zip f.cardinality

/-- Value of the dense array at an assignment (the cell the assignment's
row-major flat index addresses; out-of-range reads default to 0). -/
def Factor.valueAt (f : Factor) (a : Var → Nat) : Val :=
  f.values.getD (flatIdx f.vcPairs a) 0

/-! ### State-name dictionaries -/

/-- Python `dict` lookup on a state-name dictionary: first entry with the
requested key. -/
def sLookup (d : List (Var × List String)) (v : Var) : Option (List String) :=
  (d.find? (fun p => p.1 == v)).map Prod.snd

/-- Python `dict.update`: entries of `new` overwrite same-keyed entries of
`old`; remaining entries of `old` are kept. -/
def dictUpdate (old new : List (Var × List String)) : List (Var × List String) :=
  old.filter (fun p => !(new.any (fun q => q.1 == p.1))) ++ new

/-- State names the last factor in the list containing the variable assigns
to it (`None` when no factor contains it). -/
def lastNames (fs : List Factor) (v : Var) : Option (List String) :=
  (fs.reverse.find? (fun f => f.state_names.any (fun p => p.1 == v))).bind
    (fun f => sLookup f.state_names v)

/-! ### The contraction backend -/

/-- Dense value array together with its shape, as handed to the backend. -/
structure NDArr where
  shape : List Nat
  data : List Val
deriving DecidableEq, Repr

/-- One operand of the contraction: a dense array paired with its ordered
axis labels. -/
structure EinOp where
  arr : NDArr
  labels : List Var
deriving DecidableEq, Repr

def EinOp.valueAt (op : EinOp) (a : Var → Nat) : Val :=
  op.arr.data.getD (flatIdx (op.labels.zip op.arr.shape) a) 0

/-- All (axis label, axis size) pairs of the operands. -/
def einPairs (ops : List EinOp) : List (Var × Nat) :=
  ops.flatMap (fun op => op.labels.zip op.arr.shape)

/-- Cardinality the operands determine for a label (first matching axis). -/
def einCard (ops : List EinOp) (v : Var) : Nat :=
  (((einPairs ops).find? (fun p => p.1 == v)).map Prod.snd).getD 0

/-- First-appearance deduplication, preserving the order in which labels
first occur. -/
def dedupFirst : List Var → List Var
  | [] => []
  | x :: xs => x :: (dedupFirst xs).filter (fun v => v != x)

/-- Modelled from the spec (external interfaces): the contraction backend
(`opt_einsum.contract`, not part of this repository) receives
(dense array, ordered axis labels) pairs and a desired output axis-label
ordering, and returns a dense array whose shape matches the output
axis-label cardinalities, representing the named contraction: the
simultaneous product of all operands summed over every label not in the
output.  Axis-label/cardinality mismatches between operands sharing a label
are detected and raised as an error by the backend; an output label absent
from every operand has no cardinality, so no output shape exists for it and
the backend likewise signals an error. -/
def contract (ops : List EinOp) (output : List Var) : Except PyError NDArr :=
  if (∀ op ∈ ops, op.labels.length = op.arr.shape.length ∧ op.labels.Nodup) ∧
      (∀ p ∈ einPairs ops, ∀ q ∈ einPairs ops, p.1 = q.1 → p.2 = q.2) ∧
      output.Nodup ∧ (∀ v ∈ output, ∃ p ∈ einPairs ops, p.1 = v) then
    let card := einCard ops
    let hidden := (dedupFirst (ops.flatMap (fun op => op.labels))).filter
      (fun v => decide (v ∉ output))
    let outPairs := output.map (fun v => (v, card v))
    let hidPairs := hidden.map (fun v => (v, card v))
    Except.ok
      { shape := output.map card
      , data := (assignmentsOf outPairs).map (fun aout =>
          ((assignmentsOf hidPairs).map (fun b =>
            (ops.map (fun op =>
              op.valueAt (fun v => if v ∈ output then aout v else b v))).prod)).sum) }
  else
    Except.error (PyError.valueError "Invalid einsum contraction")

/-! ### The concrete factor class operators (external collaborators) -/

/-- Modelled from the spec (factor capability contract): the deep copy
operation of the concrete factor class; it returns a new factor object
equal to the original field by field. -/
def Factor.copy (f : Factor) : Factor :=
  { «variables» := f.«variables»
  , cardinality := f.cardinality
  , values := f.values
  , state_names := f.state_names }

/-- First-appearance ordered union of two scopes, as the spec prescribes for
the result scope of the binary combination operators. -/
def orderedUnion (xs ys : List Var) : List Var :=
  xs ++ ys.filter (fun v => decide (v ∉ xs))

/-- Cardinality a pair of factors determines for a variable (first matching
scope entry, the left factor first). -/
def pairCard (f1 f2 : Factor) (v : Var) : Nat :=
  (((f1.vcPairs ++ f2.vcPairs).find? (fun p => p.1 == v)).map Prod.snd).getD 0

/-- Modelled from the spec (factor product / log-domain sum / division):
the binary combination operator of the concrete factor class.  The result
scope is the first-appearance ordered union of the operand scopes; operands
are broadcast against each other on shared variables and combined cell by
cell with `op`; state-name dictionaries are merged with the right operand
overwriting. -/
def combineOp (op : Val → Val → Val) (f1 f2 : Factor) : Factor :=
  let scope := orderedUnion f1.«variables» f2.«variables»
  let cards := scope.map (pairCard f1 f2)
  { «variables» := scope
  , cardinality := cards
  , values := (assignmentsOf (scope.zip cards)).map
      (fun a => op (f1.valueAt a) (f2.valueAt a))
  , state_names := dictUpdate f1.state_names f2.state_names }

/-- Modelled from the spec: the binary `*` operator of the concrete factor
class (pointwise product aligned on shared variables). -/
def factorMul (f1 f2 : Factor) : Factor :=
  combineOp (fun x y => x * y) f1 f2

/-- Modelled from the spec: the binary `+` operator of the concrete factor
class (pointwise addition aligned on shared variables), used on log-domain
factors. -/
def factorAdd (f1 f2 : Factor) : Factor :=
  combineOp (fun x y => x + y) f1 f2

/-- Elementwise log transform of the value array.  The numeric log function
itself belongs to the concrete representation, so it is a parameter of the
embedding. -/
def Factor.logT (logFn : Val → Val) (f : Factor) : Factor :=
  { f with values := f.values.map logFn }

/-- Modelled from the spec (factor capability contract): the `log` method
with its in-place/fresh-copy flag, embedded with explicit state passing.
The first component is the returned object (`None` when in place), the
second the post-state of the receiver. -/
def Factor.logMeth (logFn : Val → Val) (f : Factor) (inplace : Bool) :
    Option Factor × Factor :=
  let res := Factor.logT logFn f
  if inplace then (none, res) else (some res, f)

/-- Modelled from the spec (factor capability contract): the `divide`
method with its in-place/fresh-copy flag, embedded with explicit state
passing.  The first component is the returned object (`None` when in
place), the second the post-state of the receiver. -/
def Factor.divideMeth (f1 f2 : Factor) (inplace : Bool) :
    Option Factor × Factor :=
  let res := combineOp (fun x y => x / y) f1 f2
  if inplace then (none, res) else (some res, f1)

/-! ### The translated source functions (`pgmpy/factors/base.py`) -/

/-- Embedding of `factor_product(*args)`: the contract/homogeneity guard
followed by a left fold of the binary product, with the single-operand case
returning a copy. -/
def factor_product (args : List PyObj) : Except PyError Factor :=
  if ¬ (∀ o ∈ args, isBaseFactor o = true) then
    Except.error (PyError.typeError "Arguments must be factors")
  else if (args.map typeOf).dedup.length ≠ 1 then
    Except.error (PyError.notImplementedError
      "All the args are expected to be instances of the same factor class.")
  else
    match asFactors args with
    | [] =>
      Except.error (PyError.notImplementedError
        "All the args are expected to be instances of the same factor class.")
    | [phi] => Except.ok phi.copy
    | phi :: phi2 :: rest => Except.ok ((phi2 :: rest).foldl factorMul phi)

/-- Attribute accesses of the `state_names` merge loop of
`factor_sum_product`, in factor order; a non-factor object raises
`AttributeError` at its `state_names` access. -/
def collectStateNames : List PyObj → Except PyError (List (List (Var × List String)))
  | [] => Except.ok []
  | PyObj.factor _ f :: os =>
      match collectStateNames os with
      | Except.ok rest => Except.ok (f.state_names :: rest)
      | Except.error e => Except.error e
  | PyObj.nonFactor :: _ => Except.error (PyError.attributeError "state_names")

/-- Contraction operand a factor contributes: its dense value array (with
its shape) and its ordered scope as axis labels. -/
def buildOp (f : Factor) : EinOp :=
  { arr := { shape := f.cardinality, data := f.values }, labels := f.«variables» }

/-- Assembly of the einsum expression of `factor_sum_product`: each factor
contributes its dense value array and its ordered scope as axis labels; a
non-factor object raises `AttributeError` at its `values` access. -/
def einsumOps : List PyObj → Except PyError (List EinOp)
  | [] => Except.ok []
  | PyObj.factor _ f :: os =>
      match einsumOps os with
      | Except.ok rest => Except.ok (buildOp f :: rest)
      | Except.error e => Except.error e
  | PyObj.nonFactor :: _ => Except.error (PyError.attributeError "values")

/-- Dictionary comprehension restricting the merged state names to the
output variables; a variable absent from the merged dictionary raises
`KeyError`. -/
def buildOutNames (sns : List (Var × List String)) :
    List Var → Except PyError (List (Var × List String))
  | [] => Except.ok []
  | v :: vs =>
      match sns.find? (fun p => p.1 == v) with
      | some p =>
          match buildOutNames sns vs with
          | Except.ok rest => Except.ok ((v, p.2) :: rest)
          | Except.error e => Except.error e
      | none => Except.error (PyError.keyError v)

/-- Embedding of `factor_sum_product(output_vars, factors)`: merge the
state-name dictionaries (later factors overwrite), assemble the einsum
expression, delegate to the contraction backend, then construct the output
factor over `output_vars` with cardinality taken from the contracted
array's shape and state names restricted to the output variables.  No
contract or homogeneity check is performed on the operands. -/
def factor_sum_product (output_vars : List Var) (factors : List PyObj) :
    Except PyError Factor :=
  match collectStateNames factors with
  | Except.error e => Except.error e
  | Except.ok snsAll =>
    let sns := snsAll.foldl dictUpdate []
    match einsumOps factors with
    | Except.error e => Except.error e
    | Except.ok ops =>
      match contract ops output_vars with
      | Except.error e => Except.error e
      | Except.ok arr =>
        match buildOutNames sns output_vars with
        | Except.error e => Except.error e
        | Except.ok outNames =>
          Except.ok
            { «variables» := output_vars
            , cardinality := arr.shape
            , values := arr.data
            , state_names := outNames }

/-- Embedding of `factor_log_sum(*args)`: the same guard as the product,
then a fresh log transform of every operand (`log(inplace=False)`), then a
left fold of the binary addition, with the single-operand case returning a
copy of the transformed operand. -/
def factor_log_sum (logFn : Val → Val) (args : List PyObj) : Except PyError Factor :=
  if ¬ (∀ o ∈ args, isBaseFactor o = true) then
    Except.error (PyError.typeError "Arguments must be log factors")
  else if (args.map typeOf).dedup.length ≠ 1 then
    Except.error (PyError.notImplementedError
      "All the args are expected to be instances of the same factor class.")
  else
    let log_args := (asFactors args).map
      (fun f => ((Factor.logMeth logFn f false).1).getD f)
    match log_args with
    | [] =>
      Except.error (PyError.notImplementedError
        "All the args are expected to be instances of the same factor class.")
    | [g] => Except.ok g.copy
    | g :: g2 :: rest => Except.ok ((g2 :: rest).foldl factorAdd g)

/-- Embedding of `factor_divide(phi1, phi2)`: the contract and same-class
guards, then `phi1.divide(phi2, inplace=False)`.  The embedding passes the
operand states explicitly: the result triple is the returned factor
followed by the post-states of `phi1` and `phi2`. -/
def factor_divide (phi1 phi2 : PyObj) : Except PyError (Factor × Factor × Factor) :=
  if ¬ (isBaseFactor phi1 = true ∧ isBaseFactor phi2 = true) then
    Except.error (PyError.typeError "phi1 and phi2 should be factors instances")
  else if typeOf phi1 ≠ typeOf phi2 then
    Except.error (PyError.notImplementedError
      "All the args are expected to be instances of the same factor class.")
  else
    match phi1, phi2 with
    | PyObj.factor _ f1, PyObj.factor _ f2 =>
        let step := Factor.divideMeth f1 f2 false
        Except.ok (step.1.getD f1, step.2, f2)
    | _, _ =>
        Except.error (PyError.typeError "phi1 and phi2 should be factors instances")

/-! ### Well-formedness and spec-side semantics -/

/-- Invariants of the data model: unique scope, matching lengths of scope,
cardinality and value array, state-name keys in scope order, and state-name
lists of the variable's cardinality. -/
def Factor.wf (f : Factor) : Prop :=
  f.«variables».Nodup ∧
  f.cardinality.length = f.«variables».length ∧
  f.values.length = f.cardinality.prod ∧
  f.state_names.map Prod.fst = f.«variables» ∧
  ∀ p ∈ f.state_names, ∀ q ∈ f.vcPairs, p.1 = q.1 → p.2.length = q.2

instance (f : Factor) : Decidable f.wf := by
  unfold Factor.wf; infer_instance

/-- Variables occurring in several of the factors occur with one
cardinality. -/
def cardsConsistent (fs : List Factor) : Prop :=
  ∀ f ∈ fs, ∀ g ∈ fs, ∀ p ∈ f.vcPairs, ∀ q ∈ g.vcPairs, p.1 = q.1 → p.2 = q.2

instance (fs : List Factor) : Decidable (cardsConsistent fs) := by
  unfold cardsConsistent; infer_instance

/-- Cardinality the factor list determines for a variable (first matching
scope entry in factor order). -/
def scopeCard (fs : List Factor) (v : Var) : Nat :=
  ((((fs.flatMap Factor.vcPairs)).find? (fun p => p.1 == v)).map Prod.snd).getD 0

/-- Output scope paired with the cardinalities the factor list determines
for it. -/
def outScopePairs (fs : List Factor) (output : List Var) : List (Var × Nat) :=
  output.map (fun v => (v, scopeCard fs v))

/-- Variables occurring in some factor but not in the output scope, in
first-appearance order: the variables the sum-product marginalizes out. -/
def hiddenVars (fs : List Factor) (output : List Var) : List Var :=
  (dedupFirst (fs.flatMap Factor.«variables»)).filter (fun v => decide (v ∉ output))

/-- Sum, over all assignments to the variables not in the output scope, of
the pointwise product of the factors, evaluated at an assignment of the
output scope.  This is the defining formula of the joint sum-product as the
spec states it. -/
def semSumProduct (fs : List Factor) (output : List Var) (a : Var → Nat) : Val :=
  ((assignmentsOf ((hiddenVars fs output).map (fun v => (v, scopeCard fs v)))).map
    (fun b => (fs.map (fun f =>
      f.valueAt (fun v => if v ∈ output then a v else b v))).prod)).sum

/-! ### Lemmas: row-major enumeration and indexing -/

theorem length_flatMap_const {α : Type} (F : Nat → List α) (c L : Nat)
    (h : ∀ j < c, (F j).length = L) :
    ((List.range c).flatMap F).length = c * L := by
  induction c with
  | zero => simp
  | succ n ih =>
      rw [List.range_succ, List.flatMap_append, List.length_append,
        ih (fun j hj => h j (Nat.lt_succ_of_lt hj))]
      simp only [List.flatMap_cons, List.flatMap_nil, List.append_nil]
      rw [h n (Nat.lt_succ_self n), Nat.succ_mul]

theorem getD_flatMap_blocks {α : Type} (F : Nat → List α) (d : α) (L : Nat) :
    ∀ (c i r : Nat), (∀ j < c, (F j).length = L) → i < c → r < L →
    ((List.range c).flatMap F).getD (i * L + r) d = (F i).getD r d := by
  intro c
  induction c with
  | zero => intro i r _ hi _; exact absurd hi (Nat.not_lt_zero i)
  | succ n ih =>
      intro i r hlen hi hr
      have hlenSub : ∀ j < n, (F j).length = L :=
        fun j hj => hlen j (Nat.lt_succ_of_lt hj)
      have hlen2 : ((List.range n).flatMap F).length = n * L :=
        length_flatMap_const F n L hlenSub
      rw [List.range_succ, List.flatMap_append]
      rcases Nat.lt_succ_iff_lt_or_eq.mp hi with h | h
      · rw [List.getD_append]
        · exact ih i r hlenSub h hr
        · rw [hlen2]
          have h1 : i * L + r < i * L + L := by omega
          have h2 : i * L + L = (i + 1) * L := (Nat.succ_mul i L).symm
          have h3 : (i + 1) * L ≤ n * L := Nat.mul_le_mul_right L h
          omega
      · subst h
        rw [List.getD_append_right _ _ _ _ (by rw [hlen2]; omega), hlen2]
        simp only [List.flatMap_cons, List.flatMap_nil, List.append_nil]
        congr 1
        omega

theorem length_assignmentsOf (vcs : List (Var × Nat)) :
    (assignmentsOf vcs).length = (vcs.map Prod.snd).prod := by
  induction vcs with
  | nil => simp [assignmentsOf]
  | cons p rest ih =>
      simp only [assignmentsOf, List.map_cons, List.prod_cons]
      rw [length_flatMap_const _ p.2 ((rest.map Prod.snd).prod)]
      intro j _
      rw [List.length_map, ih]

theorem flatIdx_lt_prod {vcs : List (Var × Nat)} {a : Var → Nat}
    (hb : boundedOn vcs a) :
    flatIdx vcs a < (vcs.map Prod.snd).prod := by
  induction vcs with
  | nil => simp [flatIdx]
  | cons p rest ih =>
      have h1 : a p.1 < p.2 := hb p (List.mem_cons_self p rest)
      have h2 := ih (fun q hq => hb q (List.mem_cons_of_mem p hq))
      simp only [flatIdx, List.map_cons, List.prod_cons]
      have h3 : (a p.1 + 1) * (rest.map Prod.snd).prod ≤
          p.2 * (rest.map Prod.snd).prod :=
        Nat.mul_le_mul_right _ h1
      have h4 : a p.1 * (rest.map Prod.snd).prod + (rest.map Prod.snd).prod =
          (a p.1 + 1) * (rest.map Prod.snd).prod := (Nat.succ_mul _ _).symm
      omega

theorem flatIdx_congr {vcs : List (Var × Nat)} {a b : Var → Nat}
    (h : ∀ p ∈ vcs, a p.1 = b p.1) :
    flatIdx vcs a = flatIdx vcs b := by
  induction vcs with
  | nil => rfl
  | cons p rest ih =>
      simp only [flatIdx]
      rw [h p (List.mem_cons_self p rest),
        ih (fun q hq => h q (List.mem_cons_of_mem p hq))]

/-- Key bridge between the dense row-major layout and pointwise semantics:
reading the cell a bounded assignment addresses, out of the array obtained
by tabulating `g` over all assignments, yields `g` at that assignment,
provided `g` only depends on the tabulated variables. -/
theorem getD_map_assignmentsOf (vcs : List (Var × Nat)) (g : (Var → Nat) → Val)
    (a : Var → Nat) (hb : boundedOn vcs a)
    (hg : ∀ a1 a2, (∀ p ∈ vcs, a1 p.1 = a2 p.1) → g a1 = g a2) :
    ((assignmentsOf vcs).map g).getD (flatIdx vcs a) 0 = g a := by
  induction vcs generalizing g with
  | nil =>
      simp only [assignmentsOf, flatIdx, List.map_cons, List.map_nil, List.getD]
      exact (hg a (fun _ => 0) (fun p hp => absurd hp (List.not_mem_nil p))).symm
  | cons p rest ih =>
      have hbRest : boundedOn rest a := fun q hq => hb q (List.mem_cons_of_mem p hq)
      have hL : ∀ j < p.2,
          (((assignmentsOf rest).map (setVar p.1 j)).map g).length =
            (rest.map Prod.snd).prod := by
        intro j _
        rw [List.length_map, List.length_map, length_assignmentsOf]
      simp only [assignmentsOf, flatIdx]
      rw [List.map_flatMap]
      have := getD_flatMap_blocks
        (fun i => ((assignmentsOf rest).map (setVar p.1 i)).map g) 0
        ((rest.map Prod.snd).prod) p.2 (a p.1) (flatIdx rest a)
        hL (hb p (List.mem_cons_self p rest)) (flatIdx_lt_prod hbRest)
      rw [this]
      simp only [List.map_map]
      have hrec := ih (g ∘ setVar p.1 (a p.1)) hbRest ?_
      · rw [hrec]
        exact hg _ a (by
          intro q _
          simp only [setVar]
          by_cases hq : q.1 = p.1 <;> simp [hq])
      · intro a1 a2 hagree
        refine hg _ _ ?_
        intro q hq
        rcases List.mem_cons.mp hq with h | h
        · simp only [setVar, h]
          simp
        · simp only [setVar]
          by_cases hqp : q.1 = p.1
          · simp [hqp]
          · simpa [hqp] using hagree q h

/-! ### Lemmas: scopes, unions, dictionaries -/

theorem mem_orderedUnion {v : Var} {xs ys : List Var} :
    v ∈ orderedUnion xs ys ↔ v ∈ xs ∨ v ∈ ys := by
  simp only [orderedUnion, List.mem_append, List.mem_filter]
  by_cases h : v ∈ xs <;> simp [h]

theorem nodup_orderedUnion {xs ys : List Var} (hx : xs.Nodup) (hy : ys.Nodup) :
    (orderedUnion xs ys).Nodup := by
  refine List.Nodup.append hx (List.Nodup.filter _ hy) ?_
  intro v hvx hvy
  rw [List.mem_filter] at hvy
  rcases hvy with ⟨_, hdec⟩
  rw [decide_eq_true_eq] at hdec
  exact hdec hvx

theorem mem_dedupFirst {v : Var} : ∀ {l : List Var}, v ∈ dedupFirst l ↔ v ∈ l := by
  intro l
  induction l with
  | nil => simp [dedupFirst]
  | cons x xs ih =>
      simp only [dedupFirst, List.mem_cons, List.mem_filter]
      by_cases h : v = x
      · simp [h]
      · simp [h, ih, bne_iff_ne]

theorem nodup_dedupFirst : ∀ (l : List Var), (dedupFirst l).Nodup := by
  intro l
  induction l with
  | nil => simp [dedupFirst]
  | cons x xs ih =>
      rw [dedupFirst, List.nodup_cons]
      refine ⟨?_, List.Nodup.filter _ ih⟩
      intro hmem
      rw [List.mem_filter] at hmem
      simp [bne_iff_ne] at hmem

theorem zip_map_self (l : List Var) (g : Var → Nat) :
    l.zip (l.map g) = l.map (fun v => (v, g v)) := by
  have := List.zip_map' id g l
  simpa using this

theorem exists_zip_pair {v : Var} : ∀ {l1 : List Var} {l2 : List Nat},
    l2.length = l1.length → v ∈ l1 → ∃ c, (v, c) ∈ l1.zip l2 := by
  intro l1
  induction l1 with
  | nil => intro l2 _ hv; exact absurd hv (List.not_mem_nil v)
  | cons x xs ih =>
      intro l2 hlen hv
      cases l2 with
      | nil => simp at hlen
      | cons c cs =>
          rcases List.mem_cons.mp hv with h | h
          · exact ⟨c, by rw [h, List.zip_cons_cons]; exact List.mem_cons_self _ _⟩
          · rcases ih (by simpa using hlen) h with ⟨d, hd⟩
            exact ⟨d, by rw [List.zip_cons_cons]; exact List.mem_cons_of_mem _ hd⟩

theorem Factor.valueAt_congr (f : Factor) {a b : Var → Nat}
    (h : ∀ v ∈ f.«variables», a v = b v) :
    f.valueAt a = f.valueAt b := by
  unfold Factor.valueAt
  congr 1
  refine flatIdx_congr ?_
  rintro ⟨w, c⟩ hp
  exact h w (List.of_mem_zip hp).1

theorem getD_map_of_lt {α β : Type} (f : α → β) (l : List α) {n : Nat}
    (d : β) (d0 : α) (hn : n < l.length) :
    (l.map f).getD n d = f (l.getD n d0) := by
  rw [List.getD_eq_getElem?_getD, List.getElem?_map, List.getD_eq_getElem?_getD,
    List.getElem?_eq_getElem hn]
  simp

theorem find?_filter_sub {α : Type} (p q : α → Bool) :
    ∀ (l : List α), (∀ x ∈ l, p x = true → q x = true) →
    (l.filter q).find? p = l.find? p := by
  intro l
  induction l with
  | nil => intro _; rfl
  | cons x xs ih =>
      intro h
      have hrest := ih (fun y hy => h y (List.mem_cons_of_mem x hy))
      rw [List.filter_cons]
      by_cases hq : q x = true
      · rw [if_pos hq]
        by_cases hp : p x = true
        · rw [List.find?_cons_of_pos _ hp, List.find?_cons_of_pos _ hp]
        · rw [List.find?_cons_of_neg _ (by simpa using hp),
            List.find?_cons_of_neg _ (by simpa using hp), hrest]
      · have hp : ¬ p x = true := fun hpx => hq (h x (List.mem_cons_self x xs) hpx)
        rw [if_neg hq, List.find?_cons_of_neg _ (by simpa using hp), hrest]

theorem sLookup_dictUpdate (old new : List (Var × List String)) (v : Var) :
    sLookup (dictUpdate old new) v =
      if (new.any (fun q => q.1 == v)) = true then sLookup new v
      else sLookup old v := by
  unfold sLookup dictUpdate
  rw [List.find?_append]
  by_cases h : (new.any (fun q => q.1 == v)) = true
  · rw [if_pos h]
    have hnone : (old.filter
        (fun p => !(new.any (fun q => q.1 == p.1)))).find? (fun p => p.1 == v) = none := by
      cases hfind2 : (old.filter
          (fun p => !(new.any (fun q => q.1 == p.1)))).find? (fun p => p.1 == v) with
      | none => rfl
      | some p =>
          have hpmem := List.mem_of_find?_eq_some hfind2
          have hpv : p.1 = v := by simpa using List.find?_some hfind2
          rw [List.mem_filter] at hpmem
          rcases hpmem with ⟨_, hkeep⟩
          rw [hpv] at hkeep
          rw [h] at hkeep
          cases hkeep
    rw [hnone, Option.none_or]
  · rw [if_neg h]
    have hfind : (old.filter
        (fun p => !(new.any (fun q => q.1 == p.1)))).find? (fun p => p.1 == v) =
        old.find? (fun p => p.1 == v) := by
      refine find?_filter_sub _ _ old ?_
      intro x _ hxv
      have hv : x.1 = v := by simpa using hxv
      have hfalse : (new.any (fun q => q.1 == v)) = false := Bool.eq_false_iff.mpr h
      rw [hv, hfalse]
      rfl
    rw [hfind]
    have hnew : new.find? (fun q => q.1 == v) = none := by
      cases hfind2 : new.find? (fun q => q.1 == v) with
      | none => rfl
      | some q =>
          exact absurd (List.any_eq_true.mpr
            ⟨q, List.mem_of_find?_eq_some hfind2, List.find?_some hfind2⟩) h
    rw [hnew]
    cases old.find? (fun p => p.1 == v) <;> rfl

theorem sLookup_merged (v : Var) : ∀ (fs : List Factor),
    sLookup ((fs.map Factor.state_names).foldl dictUpdate []) v = lastNames fs v := by
  intro fs
  induction fs using List.reverseRecOn with
  | nil => rfl
  | append_singleton fs f ih =>
      rw [List.map_append, List.foldl_append]
      simp only [List.map_cons, List.map_nil, List.foldl_cons, List.foldl_nil]
      rw [sLookup_dictUpdate]
      unfold lastNames
      rw [List.reverse_append]
      simp only [List.reverse_cons, List.reverse_nil, List.nil_append,
        List.singleton_append]
      by_cases h : (f.state_names.any (fun p => p.1 == v)) = true
      · rw [if_pos h, List.find?_cons_of_pos
          (p := fun g : Factor => g.state_names.any (fun q => q.1 == v)) _ h]
        rfl
      · rw [if_neg h, List.find?_cons_of_neg
          (p := fun g : Factor => g.state_names.any (fun q => q.1 == v)) _
            (by simpa using h), ih]
        rfl

theorem lastNames_isSome {v : Var} {fs : List Factor} (f : Factor) (hf : f ∈ fs)
    (hp : ∃ p ∈ f.state_names, p.1 = v) :
    (lastNames fs v).isSome = true := by
  unfold lastNames
  have hcond : ∃ g ∈ fs.reverse, (g.state_names.any (fun p => p.1 == v)) = true := by
    refine ⟨f, List.mem_reverse.mpr hf, ?_⟩
    rcases hp with ⟨p, hpmem, hpv⟩
    exact List.any_eq_true.mpr ⟨p, hpmem, by simp [hpv]⟩
  have hsome := List.find?_isSome.mpr hcond
  rcases Option.isSome_iff_exists.mp hsome with ⟨g, hg⟩
  rw [hg, Option.some_bind]
  have hgcond := List.find?_some hg
  rcases List.any_eq_true.mp hgcond with ⟨q, hqmem, hqv⟩
  unfold sLookup
  have : ∃ x ∈ g.state_names, (fun p => p.1 == v) x = true := ⟨q, hqmem, hqv⟩
  rcases Option.isSome_iff_exists.mp (List.find?_isSome.mpr this) with ⟨r, hr⟩
  rw [hr]
  rfl

theorem sLookup_map_out (out : List Var) (h : Var → List String) {v : Var}
    (hv : v ∈ out) :
    sLookup (out.map (fun w => (w, h w))) v = some (h v) := by
  induction out with
  | nil => cases hv
  | cons w ws ih =>
      rw [List.map_cons]
      by_cases hwv : w = v
      · subst hwv
        unfold sLookup
        rw [List.find?_cons_of_pos
          (p := fun p : Var × List String => p.1 == w) _ (by simp)]
        rfl
      · have hvws : v ∈ ws := by
          rcases List.mem_cons.mp hv with h1 | h1
          · exact absurd h1.symm hwv
          · exact h1
        unfold sLookup
        rw [List.find?_cons_of_neg
          (p := fun p : Var × List String => p.1 == v) _ (by simpa using hwv)]
        exact ih hvws

/-! ### Lemmas: the translated functions on factor arguments -/

theorem asFactors_cons_factor (rep : ConcreteType) (f : Factor) (os : List PyObj) :
    asFactors (PyObj.factor rep f :: os) = f :: asFactors os := by
  simp [asFactors, List.filterMap_cons]

theorem asFactors_cons_nonFactor (os : List PyObj) :
    asFactors (PyObj.nonFactor :: os) = asFactors os := by
  simp [asFactors, List.filterMap_cons]

theorem asFactors_map_factor (rep : ConcreteType) (fs : List Factor) :
    asFactors (fs.map (PyObj.factor rep)) = fs := by
  induction fs with
  | nil => rfl
  | cons f fs ih => rw [List.map_cons, asFactors_cons_factor, ih]

theorem collectStateNames_ok : ∀ (objs : List PyObj),
    (∀ o ∈ objs, isBaseFactor o = true) →
    collectStateNames objs = Except.ok ((asFactors objs).map Factor.state_names) := by
  intro objs
  induction objs with
  | nil => intro _; rfl
  | cons o os ih =>
      intro h
      cases o with
      | factor rep f =>
          rw [collectStateNames, ih (fun x hx => h x (List.mem_cons_of_mem _ hx)),
            asFactors_cons_factor, List.map_cons]
      | nonFactor =>
          exact absurd (h _ (List.mem_cons_self _ _)) (by simp [isBaseFactor])

theorem einsumOps_ok : ∀ (objs : List PyObj),
    (∀ o ∈ objs, isBaseFactor o = true) →
    einsumOps objs = Except.ok ((asFactors objs).map buildOp) := by
  intro objs
  induction objs with
  | nil => intro _; rfl
  | cons o os ih =>
      intro h
      cases o with
      | factor rep f =>
          rw [einsumOps, ih (fun x hx => h x (List.mem_cons_of_mem _ hx)),
            asFactors_cons_factor, List.map_cons]
      | nonFactor =>
          exact absurd (h _ (List.mem_cons_self _ _)) (by simp [isBaseFactor])

theorem einPairs_buildOps (fs : List Factor) :
    einPairs (fs.map buildOp) = fs.flatMap Factor.vcPairs := by
  unfold einPairs
  rw [List.flatMap_map]
  rfl

theorem einCard_buildOps (fs : List Factor) :
    einCard (fs.map buildOp) = scopeCard fs := by
  funext v
  unfold einCard scopeCard
  rw [einPairs_buildOps]

theorem labels_buildOps (fs : List Factor) :
    (fs.map buildOp).flatMap (fun op => op.labels) = fs.flatMap Factor.«variables» := by
  rw [List.flatMap_map]
  rfl

theorem contract_buildOps_ok (fs : List Factor) (output : List Var)
    (hwf : ∀ f ∈ fs, f.wf) (hcons : cardsConsistent fs)
    (hnd : output.Nodup) (hsub : ∀ v ∈ output, ∃ f ∈ fs, v ∈ f.«variables») :
    contract (fs.map buildOp) output = Except.ok
      { shape := output.map (scopeCard fs)
      , data := (assignmentsOf (outScopePairs fs output)).map
          (fun aout => semSumProduct fs output aout) } := by
  unfold contract
  rw [if_pos]
  · simp only [einCard_buildOps, labels_buildOps, List.map_map]
    rfl
  · refine ⟨?_, ?_, hnd, ?_⟩
    · intro op hop
      rcases List.mem_map.mp hop with ⟨f, hf, rfl⟩
      rcases hwf f hf with ⟨hnd2, hlen, _, _, _⟩
      exact ⟨hlen.symm, hnd2⟩
    · intro p hp q hq
      rw [einPairs_buildOps] at hp hq
      rcases List.mem_flatMap.mp hp with ⟨f, hf, hpf⟩
      rcases List.mem_flatMap.mp hq with ⟨g, hg, hqg⟩
      exact hcons f hf g hg p hpf q hqg
    · intro v hv
      rcases hsub v hv with ⟨f, hf, hvf⟩
      rcases hwf f hf with ⟨_, hlen, _, _, _⟩
      rcases exists_zip_pair hlen hvf with ⟨c, hc⟩
      refine ⟨(v, c), ?_, rfl⟩
      rw [einPairs_buildOps]
      exact List.mem_flatMap.mpr ⟨f, hf, hc⟩

theorem buildOutNames_ok (sns : List (Var × List String)) :
    ∀ (out : List Var), (∀ v ∈ out, (sLookup sns v).isSome = true) →
    buildOutNames sns out =
      Except.ok (out.map (fun v => (v, (sLookup sns v).getD []))) := by
  intro out
  induction out with
  | nil => intro _; rfl
  | cons v vs ih =>
      intro h
      have hv := h v (List.mem_cons_self v vs)
      cases hfind : sns.find? (fun p => p.1 == v) with
      | none =>
          rw [sLookup, hfind] at hv
          cases hv
      | some p =>
          rw [buildOutNames, hfind, ih (fun w hw => h w (List.mem_cons_of_mem _ hw)),
            List.map_cons]
          have : sLookup sns v = some p.2 := by rw [sLookup, hfind]; rfl
          rw [this]
          rfl

theorem buildOutNames_error (sns : List (Var × List String)) :
    ∀ (out : List Var) (e : PyError), buildOutNames sns out = Except.error e →
    ∃ v, e = PyError.keyError v := by
  intro out
  induction out with
  | nil => intro e h; cases h
  | cons v vs ih =>
      intro e h
      rw [buildOutNames] at h
      cases hfind : sns.find? (fun p => p.1 == v) with
      | none =>
          rw [hfind] at h
          injection h with h2
          exact ⟨v, h2.symm⟩
      | some p =>
          rw [hfind] at h
          cases hrec : buildOutNames sns vs with
          | ok rest => rw [hrec] at h; cases h
          | error e2 =>
              rw [hrec] at h
              injection h with h2
              exact h2 ▸ ih e2 hrec

/-- Success of the sum-product on well-formed, cardinality-consistent
factors whose scopes cover the requested output: the explicit output factor
with scope `output`, shape-derived cardinality, values tabulating the
spec-side sum-product semantics and state names restricted to the output
(last containing factor winning). -/
theorem fsp_ok (output : List Var) (rep : ConcreteType) (fs : List Factor)
    (hwf : ∀ f ∈ fs, f.wf) (hcons : cardsConsistent fs)
    (hnd : output.Nodup) (hsub : ∀ v ∈ output, ∃ f ∈ fs, v ∈ f.«variables») :
    factor_sum_product output (fs.map (PyObj.factor rep)) = Except.ok
      { «variables» := output
      , cardinality := output.map (scopeCard fs)
      , values := (assignmentsOf (outScopePairs fs output)).map
          (fun aout => semSumProduct fs output aout)
      , state_names := output.map (fun v => (v, (lastNames fs v).getD [])) } := by
  have hall : ∀ o ∈ fs.map (PyObj.factor rep), isBaseFactor o = true := by
    intro o ho
    rcases List.mem_map.mp ho with ⟨f, _, rfl⟩
    rfl
  have hlook : ∀ v ∈ output,
      (sLookup ((fs.map Factor.state_names).foldl dictUpdate []) v).isSome = true := by
    intro v hv
    rw [sLookup_merged]
    rcases hsub v hv with ⟨f, hf, hvf⟩
    rcases hwf f hf with ⟨_, _, _, hkeys, _⟩
    rcases List.mem_map.mp (hkeys ▸ hvf) with ⟨p, hp, hpv⟩
    exact lastNames_isSome f hf ⟨p, hp, hpv⟩
  unfold factor_sum_product
  rw [collectStateNames_ok _ hall, asFactors_map_factor,
    einsumOps_ok _ hall, asFactors_map_factor]
  dsimp only
  rw [contract_buildOps_ok fs output hwf hcons hnd hsub,
    buildOutNames_ok _ output hlook]
  simp only [sLookup_merged]

theorem map_congr_mem {α β : Type} (l : List α) (f g : α → β)
    (h : ∀ x ∈ l, f x = g x) : l.map f = l.map g := by
  induction l with
  | nil => rfl
  | cons x xs ih =>
      rw [List.map_cons, List.map_cons, h x (List.mem_cons_self x xs),
        ih (fun y hy => h y (List.mem_cons_of_mem x hy))]

theorem semSumProduct_congr (fs : List Factor) (output : List Var)
    {a1 a2 : Var → Nat} (h : ∀ v ∈ output, a1 v = a2 v) :
    semSumProduct fs output a1 = semSumProduct fs output a2 := by
  unfold semSumProduct
  congr 1
  refine map_congr_mem _ _ _ ?_
  intro b _
  congr 1
  refine map_congr_mem _ _ _ ?_
  intro f _
  refine Factor.valueAt_congr f ?_
  intro v _
  by_cases hv : v ∈ output
  · simp only [if_pos hv]
    exact h v hv
  · simp only [if_neg hv]

/-! ### Claim theorems -/

/-- Fixture: a factor over scope A, B with cardinalities 2, 2 and joint
values 1, 2, 3, 4. -/
def phiAB : Factor :=
  { «variables» := ["A", "B"]
  , cardinality := [2, 2]
  , values := [1, 2, 3, 4]
  , state_names := [("A", ["a0", "a1"]), ("B", ["b0", "b1"])] }

/-- C1: for every list of factors and every target output scope whose
variables all occur in some input factor, `factor_sum_product` returns a
factor over `output_vars` whose value at each in-range assignment equals
the sum, over all assignments to the variables not in `output_vars`, of the
pointwise product of the input factors. -/
theorem sum_product_is_marginal_of_product (output : List Var)
    (rep : ConcreteType) (fs : List Factor)
    (hwf : ∀ f ∈ fs, f.wf) (hcons : cardsConsistent fs)
    (hnd : output.Nodup) (hsub : ∀ v ∈ output, ∃ f ∈ fs, v ∈ f.«variables») :
    ∃ F, factor_sum_product output (fs.map (PyObj.factor rep)) = Except.ok F ∧
      F.«variables» = output ∧
      ∀ a : Var → Nat, boundedOn (outScopePairs fs output) a →
        F.valueAt a = semSumProduct fs output a := by
  refine ⟨_, fsp_ok output rep fs hwf hcons hnd hsub, rfl, ?_⟩
  intro a hb
  show Factor.valueAt _ a = _
  unfold Factor.valueAt Factor.vcPairs
  show (((assignmentsOf (outScopePairs fs output)).map
      (fun aout => semSumProduct fs output aout)).getD
        (flatIdx (output.zip (output.map (scopeCard fs))) a) 0) = _
  rw [zip_map_self]
  refine getD_map_assignmentsOf (outScopePairs fs output)
    (semSumProduct fs output) a hb ?_
  intro a1 a2 h12
  refine semSumProduct_congr fs output ?_
  intro v hv
  exact h12 (v, scopeCard fs v) (List.mem_map.mpr ⟨v, hv, rfl⟩)

/-- Witness for C1, instantiated at the single factor over scope A, B of
the spec: the sum-product onto A equals the manual marginal 3, 7 obtained
by summing the joint values over B. -/
theorem sum_product_is_marginal_of_product_witness :
    ((∀ f ∈ [phiAB], f.wf) ∧ cardsConsistent [phiAB] ∧
      (["A"] : List Var).Nodup ∧
      (∀ v ∈ ["A"], ∃ f ∈ [phiAB], v ∈ f.«variables»)) ∧
    (∃ F, factor_sum_product ["A"]
        ([phiAB].map (PyObj.factor ConcreteType.discreteFactor)) = Except.ok F ∧
      F.«variables» = ["A"] ∧
      ∀ a : Var → Nat, boundedOn (outScopePairs [phiAB] ["A"]) a →
        F.valueAt a = semSumProduct [phiAB] ["A"] a) ∧
    factor_sum_product ["A"] [PyObj.factor ConcreteType.discreteFactor phiAB] =
      Except.ok
        { «variables» := ["A"], cardinality := [2], values := [3, 7]
        , state_names := [("A", ["a0", "a1"])] } :=
  ⟨⟨by decide, by decide, by decide, by decide⟩,
   sum_product_is_marginal_of_product ["A"] ConcreteType.discreteFactor [phiAB]
     (by decide) (by decide) (by decide) (by decide),
   by with_unfolding_all decide⟩

theorem asFactors_nil : asFactors [] = [] := rfl

theorem dedup_length_ne_one {l : List PyType} {t1 t2 : PyType}
    (h1 : t1 ∈ l) (h2 : t2 ∈ l) (hne : t1 ≠ t2) : l.dedup.length ≠ 1 := by
  intro hlen
  rcases List.length_eq_one.mp hlen with ⟨t, ht⟩
  have m1 := List.mem_dedup.mpr h1
  have m2 := List.mem_dedup.mpr h2
  rw [ht] at m1 m2
  rcases List.mem_singleton.mp m1 with rfl
  exact hne (List.mem_singleton.mp m2).symm

/-- C4: on a single factor operand, `factor_product` returns the result of
the operand's `copy` call, which agrees with the operand value for value
and scope for scope (and state name for state name). -/
theorem product_single_is_copy (rep : ConcreteType) (f : Factor) :
    factor_product [PyObj.factor rep f] = Except.ok f.copy ∧
    f.copy.«variables» = f.«variables» ∧ f.copy.cardinality = f.cardinality ∧
    f.copy.values = f.values ∧ f.copy.state_names = f.state_names := by
  refine ⟨?_, rfl, rfl, rfl, rfl⟩
  unfold factor_product
  rw [if_neg (by simp [isBaseFactor]), if_neg (by
    simp [List.dedup_cons_of_not_mem])]
  simp only [asFactors_cons_factor, asFactors_nil]

theorem mixed_types_dedup_ne_one (args : List PyObj)
    (h : ∃ o1 ∈ args, ∃ o2 ∈ args, typeOf o1 ≠ typeOf o2) :
    (args.map typeOf).dedup.length ≠ 1 := by
  rcases h with ⟨o1, h1, o2, h2, hne⟩
  exact dedup_length_ne_one (List.mem_map.mpr ⟨o1, h1, rfl⟩)
    (List.mem_map.mpr ⟨o2, h2, rfl⟩) hne

theorem factor_product_guard_type (args : List PyObj)
    (h : ¬ (∀ o ∈ args, isBaseFactor o = true)) :
    factor_product args =
      Except.error (PyError.typeError "Arguments must be factors") := by
  unfold factor_product
  rw [if_pos h]

theorem factor_product_guard_mixed (args : List PyObj)
    (hall : ∀ o ∈ args, isBaseFactor o = true)
    (hmixed : ∃ o1 ∈ args, ∃ o2 ∈ args, typeOf o1 ≠ typeOf o2) :
    factor_product args = Except.error (PyError.notImplementedError
      "All the args are expected to be instances of the same factor class.") := by
  unfold factor_product
  rw [if_neg (not_not_intro hall), if_pos (mixed_types_dedup_ne_one args hmixed)]

theorem factor_log_sum_guard_type (logFn : Val → Val) (args : List PyObj)
    (h : ¬ (∀ o ∈ args, isBaseFactor o = true)) :
    factor_log_sum logFn args =
      Except.error (PyError.typeError "Arguments must be log factors") := by
  unfold factor_log_sum
  rw [if_pos h]

theorem factor_log_sum_guard_mixed (logFn : Val → Val) (args : List PyObj)
    (hall : ∀ o ∈ args, isBaseFactor o = true)
    (hmixed : ∃ o1 ∈ args, ∃ o2 ∈ args, typeOf o1 ≠ typeOf o2) :
    factor_log_sum logFn args = Except.error (PyError.notImplementedError
      "All the args are expected to be instances of the same factor class.") := by
  unfold factor_log_sum
  rw [if_neg (not_not_intro hall), if_pos (mixed_types_dedup_ne_one args hmixed)]

theorem factor_divide_guard_type (o1 o2 : PyObj)
    (h : ¬ (isBaseFactor o1 = true ∧ isBaseFactor o2 = true)) :
    factor_divide o1 o2 =
      Except.error (PyError.typeError "phi1 and phi2 should be factors instances") := by
  unfold factor_divide
  rw [if_pos h]

theorem factor_divide_guard_mixed (o1 o2 : PyObj)
    (h1 : isBaseFactor o1 = true) (h2 : isBaseFactor o2 = true)
    (hne : typeOf o1 ≠ typeOf o2) :
    factor_divide o1 o2 = Except.error (PyError.notImplementedError
      "All the args are expected to be instances of the same factor class.") := by
  unfold factor_divide
  rw [if_neg (not_not_intro ⟨h1, h2⟩), if_pos hne]

/-- C7: for `factor_product`, `factor_log_sum` and `factor_divide`, a
non-factor operand raises the invalid-argument `TypeError`, and operands of
different concrete classes raise the unsupported-combination
`NotImplementedError`; both errors are returned by the guard that precedes
every copy, log transform, multiplication and division. -/
theorem guards_reject_invalid_and_mixed :
    (∀ args : List PyObj, ¬ (∀ o ∈ args, isBaseFactor o = true) →
      factor_product args =
        Except.error (PyError.typeError "Arguments must be factors")) ∧
    (∀ args : List PyObj, (∀ o ∈ args, isBaseFactor o = true) →
      (∃ o1 ∈ args, ∃ o2 ∈ args, typeOf o1 ≠ typeOf o2) →
      factor_product args = Except.error (PyError.notImplementedError
        "All the args are expected to be instances of the same factor class.")) ∧
    (∀ (logFn : Val → Val) (args : List PyObj),
      ¬ (∀ o ∈ args, isBaseFactor o = true) →
      factor_log_sum logFn args =
        Except.error (PyError.typeError "Arguments must be log factors")) ∧
    (∀ (logFn : Val → Val) (args : List PyObj),
      (∀ o ∈ args, isBaseFactor o = true) →
      (∃ o1 ∈ args, ∃ o2 ∈ args, typeOf o1 ≠ typeOf o2) →
      factor_log_sum logFn args = Except.error (PyError.notImplementedError
        "All the args are expected to be instances of the same factor class.")) ∧
    (∀ o1 o2 : PyObj, ¬ (isBaseFactor o1 = true ∧ isBaseFactor o2 = true) →
      factor_divide o1 o2 =
        Except.error (PyError.typeError "phi1 and phi2 should be factors instances")) ∧
    (∀ o1 o2 : PyObj, isBaseFactor o1 = true → isBaseFactor o2 = true →
      typeOf o1 ≠ typeOf o2 →
      factor_divide o1 o2 = Except.error (PyError.notImplementedError
        "All the args are expected to be instances of the same factor class.")) :=
  ⟨factor_product_guard_type, factor_product_guard_mixed,
   factor_log_sum_guard_type, factor_log_sum_guard_mixed,
   factor_divide_guard_type, factor_divide_guard_mixed⟩

/-- Witness for C7: concrete non-factor and mixed-class operands are
rejected with the stated errors by all three guarded operations. -/
theorem guards_reject_invalid_and_mixed_witness :
    factor_product [PyObj.nonFactor] =
      Except.error (PyError.typeError "Arguments must be factors") ∧
    factor_product [PyObj.factor ConcreteType.discreteFactor phiAB,
        PyObj.factor ConcreteType.tabularCPD phiAB] =
      Except.error (PyError.notImplementedError
        "All the args are expected to be instances of the same factor class.") ∧
    factor_log_sum (fun x => x) [PyObj.nonFactor] =
      Except.error (PyError.typeError "Arguments must be log factors") ∧
    factor_log_sum (fun x => x) [PyObj.factor ConcreteType.discreteFactor phiAB,
        PyObj.factor ConcreteType.tabularCPD phiAB] =
      Except.error (PyError.notImplementedError
        "All the args are expected to be instances of the same factor class.") ∧
    factor_divide PyObj.nonFactor (PyObj.factor ConcreteType.discreteFactor phiAB) =
      Except.error (PyError.typeError "phi1 and phi2 should be factors instances") ∧
    factor_divide (PyObj.factor ConcreteType.discreteFactor phiAB)
        (PyObj.factor ConcreteType.tabularCPD phiAB) =
      Except.error (PyError.notImplementedError
        "All the args are expected to be instances of the same factor class.") := by
  obtain ⟨h1, h2, h3, h4, h5, h6⟩ := guards_reject_invalid_and_mixed
  exact ⟨h1 _ (by decide), h2 _ (by decide) (by decide),
    h3 _ _ (by decide), h4 _ _ (by decide) (by decide),
    h5 _ _ (by decide), h6 _ _ (by decide) (by decide) (by decide)⟩

/-- C8: on two factor operands of the same concrete class, `factor_divide`
returns the freshly computed quotient factor (`divide` is invoked with
`inplace=False`) and the post-states of both operands are unchanged. -/
theorem divide_fresh_preserves_operands (rep : ConcreteType) (f1 f2 : Factor) :
    factor_divide (PyObj.factor rep f1) (PyObj.factor rep f2) =
      Except.ok (combineOp (fun x y => x / y) f1 f2, f1, f2) ∧
    (Factor.divideMeth f1 f2 false).2 = f1 := by
  refine ⟨?_, rfl⟩
  unfold factor_divide
  rw [if_neg (by simp [isBaseFactor]),
    if_neg (not_not_intro (show typeOf (PyObj.factor rep f1) =
      typeOf (PyObj.factor rep f2) by cases rep <;> rfl))]
  rfl

/-- C10: with zero operands, the per-operand contract check passes
vacuously, the set of operand types is empty (so its size is 0, not 1), and
both `factor_product` and `factor_log_sum` raise the
unsupported-combination `NotImplementedError`. -/
theorem empty_args_unsupported_combination :
    (([] : List PyObj).all isBaseFactor = true) ∧
    ((([] : List PyObj).map typeOf).dedup.length = 0) ∧
    factor_product [] = Except.error (PyError.notImplementedError
      "All the args are expected to be instances of the same factor class.") ∧
    (∀ logFn : Val → Val,
      factor_log_sum logFn [] = Except.error (PyError.notImplementedError
        "All the args are expected to be instances of the same factor class.")) :=
  ⟨rfl, rfl, rfl, fun _ => rfl⟩

/-- Witness for C10 at a concrete log function. -/
theorem empty_args_unsupported_combination_witness :
    factor_log_sum (fun x => x) [] = Except.error (PyError.notImplementedError
      "All the args are expected to be instances of the same factor class.") :=
  empty_args_unsupported_combination.2.2.2 (fun x => x)

/-! ### The sum-product has no operand guard (C2) -/

/-- Fixture: a factor over scope A with cardinality 2 and values 5, 7. -/
def phiA2 : Factor :=
  { «variables» := ["A"], cardinality := [2], values := [5, 7]
  , state_names := [("A", ["a0", "a1"])] }

theorem asFactors_map_factorFn {α : Type} (l : List α)
    (rf : α → ConcreteType) (ff : α → Factor) :
    asFactors (l.map (fun x => PyObj.factor (rf x) (ff x))) = l.map ff := by
  induction l with
  | nil => rfl
  | cons x xs ih => rw [List.map_cons, asFactors_cons_factor, ih, List.map_cons]

theorem contract_error_shape {ops : List EinOp} {output : List Var} {e : PyError}
    (h : contract ops output = Except.error e) :
    e = PyError.valueError "Invalid einsum contraction" := by
  unfold contract at h
  split at h
  · cases h
  · injection h with h2
    exact h2.symm

theorem fsp_result_shapes (output : List Var) (objs : List PyObj)
    (hall : ∀ o ∈ objs, isBaseFactor o = true) :
    (∃ F, factor_sum_product output objs = Except.ok F) ∨
    factor_sum_product output objs =
      Except.error (PyError.valueError "Invalid einsum contraction") ∨
    (∃ v, factor_sum_product output objs = Except.error (PyError.keyError v)) := by
  unfold factor_sum_product
  rw [collectStateNames_ok _ hall, einsumOps_ok _ hall]
  dsimp only
  cases hc : contract ((asFactors objs).map buildOp) output with
  | error e =>
      right; left
      have he := contract_error_shape hc
      subst he
      rfl
  | ok arr =>
      cases hb : buildOutNames
          (((asFactors objs).map Factor.state_names).foldl dictUpdate [])
          output with
      | error e2 =>
          right; right
          rcases buildOutNames_error _ output e2 hb with ⟨v, rfl⟩
          exact ⟨v, rfl⟩
      | ok names =>
          left
          exact ⟨_, rfl⟩

theorem fsp_no_guard_error (output : List Var) (objs : List PyObj)
    (hall : ∀ o ∈ objs, isBaseFactor o = true) (m : String) :
    factor_sum_product output objs ≠ Except.error (PyError.typeError m) ∧
    factor_sum_product output objs ≠
      Except.error (PyError.notImplementedError m) := by
  rcases fsp_result_shapes output objs hall with ⟨F, hF⟩ | h | ⟨v, hv⟩ <;>
    constructor <;> intro hcontra <;> simp_all

theorem fsp_rep_independent (output : List Var) (l : List (ConcreteType × Factor)) :
    factor_sum_product output (l.map (fun p => PyObj.factor p.1 p.2)) =
      factor_sum_product output
        (l.map (fun p => PyObj.factor ConcreteType.discreteFactor p.2)) := by
  have hall1 : ∀ o ∈ l.map (fun p => PyObj.factor p.1 p.2),
      isBaseFactor o = true := by
    intro o ho
    rcases List.mem_map.mp ho with ⟨p, _, rfl⟩
    rfl
  have hall2 : ∀ o ∈ l.map (fun p => PyObj.factor ConcreteType.discreteFactor p.2),
      isBaseFactor o = true := by
    intro o ho
    rcases List.mem_map.mp ho with ⟨p, _, rfl⟩
    rfl
  unfold factor_sum_product
  rw [collectStateNames_ok _ hall1, collectStateNames_ok _ hall2,
    einsumOps_ok _ hall1, einsumOps_ok _ hall2,
    asFactors_map_factorFn l Prod.fst Prod.snd,
    asFactors_map_factorFn l (fun _ => ConcreteType.discreteFactor) Prod.snd]

/-- C2 amended: `factor_product`, `factor_log_sum` and `factor_divide`
verify the factor contract and the class homogeneity of their operands
before any numeric work, but `factor_sum_product` performs no such check:
on factor operands its result does not depend on the operands' concrete
classes and it never raises the invalid-argument or
unsupported-combination error. -/
theorem sum_product_has_no_type_guard :
    (∀ args : List PyObj, ¬ (∀ o ∈ args, isBaseFactor o = true) →
      factor_product args =
        Except.error (PyError.typeError "Arguments must be factors") ∧
      ∀ logFn : Val → Val, factor_log_sum logFn args =
        Except.error (PyError.typeError "Arguments must be log factors")) ∧
    (∀ args : List PyObj, (∀ o ∈ args, isBaseFactor o = true) →
      (∃ o1 ∈ args, ∃ o2 ∈ args, typeOf o1 ≠ typeOf o2) →
      factor_product args = Except.error (PyError.notImplementedError
        "All the args are expected to be instances of the same factor class.") ∧
      ∀ logFn : Val → Val, factor_log_sum logFn args =
        Except.error (PyError.notImplementedError
          "All the args are expected to be instances of the same factor class.")) ∧
    (∀ o1 o2 : PyObj, ¬ (isBaseFactor o1 = true ∧ isBaseFactor o2 = true) →
      factor_divide o1 o2 =
        Except.error (PyError.typeError "phi1 and phi2 should be factors instances")) ∧
    (∀ o1 o2 : PyObj, isBaseFactor o1 = true → isBaseFactor o2 = true →
      typeOf o1 ≠ typeOf o2 →
      factor_divide o1 o2 = Except.error (PyError.notImplementedError
        "All the args are expected to be instances of the same factor class.")) ∧
    (∀ (output : List Var) (l : List (ConcreteType × Factor)),
      factor_sum_product output (l.map (fun p => PyObj.factor p.1 p.2)) =
        factor_sum_product output
          (l.map (fun p => PyObj.factor ConcreteType.discreteFactor p.2))) ∧
    (∀ (output : List Var) (objs : List PyObj),
      (∀ o ∈ objs, isBaseFactor o = true) → ∀ m : String,
      factor_sum_product output objs ≠ Except.error (PyError.typeError m) ∧
      factor_sum_product output objs ≠
        Except.error (PyError.notImplementedError m)) :=
  ⟨fun args h => ⟨factor_product_guard_type args h,
      fun logFn => factor_log_sum_guard_type logFn args h⟩,
   fun args hall hmixed => ⟨factor_product_guard_mixed args hall hmixed,
      fun logFn => factor_log_sum_guard_mixed logFn args hall hmixed⟩,
   factor_divide_guard_type, factor_divide_guard_mixed,
   fsp_rep_independent, fsp_no_guard_error⟩

/-- Witness for C2 at concrete operands: the guard fires for the product on
a non-factor, while the sum-product on mixed-class factor operands raises
neither guard error. -/
theorem sum_product_has_no_type_guard_witness :
    factor_product [PyObj.nonFactor] =
      Except.error (PyError.typeError "Arguments must be factors") ∧
    factor_sum_product ["A"] [PyObj.factor ConcreteType.discreteFactor phiAB,
        PyObj.factor ConcreteType.tabularCPD phiA2] ≠
      Except.error (PyError.notImplementedError
        "All the args are expected to be instances of the same factor class.") := by
  obtain ⟨g1, _, _, _, _, g6⟩ := sum_product_has_no_type_guard
  exact ⟨(g1 [PyObj.nonFactor] (by decide)).1,
    (g6 ["A"] [PyObj.factor ConcreteType.discreteFactor phiAB,
      PyObj.factor ConcreteType.tabularCPD phiA2] (by decide)
      "All the args are expected to be instances of the same factor class.").2⟩

/-- C2 counterexample: two factor operands of different concrete classes
are accepted by `factor_sum_product`, which runs the contraction and
returns a factor instead of failing fast with the unsupported-combination
error; a non-factor operand likewise fails only at its `state_names`
attribute access, not with the guard's invalid-argument `TypeError`. -/
theorem sum_product_skips_type_guard_cx :
    factor_sum_product ["A"] [PyObj.factor ConcreteType.discreteFactor phiAB,
        PyObj.factor ConcreteType.tabularCPD phiA2] =
      Except.ok
        { «variables» := ["A"], cardinality := [2], values := [15, 49]
        , state_names := [("A", ["a0", "a1"])] } ∧
    factor_sum_product ["A"] [PyObj.nonFactor] =
      Except.error (PyError.attributeError "state_names") :=
  ⟨by with_unfolding_all decide, by decide⟩

/-! ### Unknown output variables (C6) -/

/-- C6 amended: an output variable absent from every input factor's scope
makes `factor_sum_product` raise an error, but the error is signalled by
the contraction backend (the output label has no cardinality), before the
merged state-name lookup of the output-factor construction is reached; the
`KeyError` of that lookup is never the raised error. -/
theorem unknown_output_var_contraction_error (output : List Var)
    (objs : List PyObj) (hall : ∀ o ∈ objs, isBaseFactor o = true)
    {v : Var} (hv : v ∈ output)
    (habs : ∀ f ∈ asFactors objs, v ∉ f.«variables») :
    factor_sum_product output objs =
      Except.error (PyError.valueError "Invalid einsum contraction") ∧
    ∀ w, factor_sum_product output objs ≠
      Except.error (PyError.keyError w) := by
  have hmain : factor_sum_product output objs =
      Except.error (PyError.valueError "Invalid einsum contraction") := by
    unfold factor_sum_product
    rw [collectStateNames_ok _ hall, einsumOps_ok _ hall]
    dsimp only
    have hcontr : contract ((asFactors objs).map buildOp) output =
        Except.error (PyError.valueError "Invalid einsum contraction") := by
      unfold contract
      rw [if_neg]
      intro hcond
      rcases hcond with ⟨_, _, _, hD⟩
      rcases hD v hv with ⟨p, hp, hpv⟩
      rw [einPairs_buildOps] at hp
      rcases List.mem_flatMap.mp hp with ⟨f, hf, hpf⟩
      have hvf : p.1 ∈ f.«variables» := (List.of_mem_zip hpf).1
      rw [hpv] at hvf
      exact habs f hf hvf
    rw [hcontr]
  refine ⟨hmain, ?_⟩
  intro w hcontra
  rw [hmain] at hcontra
  cases hcontra

/-- Witness for C6 at a concrete input: the output variable Z occurs in no
input factor, and the call returns the backend's error. -/
theorem unknown_output_var_contraction_error_witness :
    ((∀ o ∈ [PyObj.factor ConcreteType.discreteFactor phiAB],
        isBaseFactor o = true) ∧
      ("Z" : Var) ∈ ["Z"] ∧
      (∀ f ∈ asFactors [PyObj.factor ConcreteType.discreteFactor phiAB],
        ("Z" : Var) ∉ f.«variables»)) ∧
    (factor_sum_product ["Z"] [PyObj.factor ConcreteType.discreteFactor phiAB] =
        Except.error (PyError.valueError "Invalid einsum contraction") ∧
      ∀ w, factor_sum_product ["Z"]
          [PyObj.factor ConcreteType.discreteFactor phiAB] ≠
        Except.error (PyError.keyError w)) :=
  ⟨⟨by decide, by decide, by decide⟩,
   unknown_output_var_contraction_error (v := "Z") ["Z"]
     [PyObj.factor ConcreteType.discreteFactor phiAB]
     (by decide) (by decide) (by decide)⟩

/-- C6 counterexample: with output variable Z absent from the single input
factor over A, B, the raised error is the contraction backend's
`ValueError`, not the `KeyError` of the state-name lookup during
output-factor construction that the claim names. -/
theorem unknown_output_var_error_location_cx :
    factor_sum_product ["Z"] [PyObj.factor ConcreteType.discreteFactor phiAB] =
      Except.error (PyError.valueError "Invalid einsum contraction") ∧
    factor_sum_product ["Z"] [PyObj.factor ConcreteType.discreteFactor phiAB] ≠
      Except.error (PyError.keyError "Z") :=
  ⟨by decide, by decide⟩

/-! ### State-name merge (C5) -/

/-- Fixture: a factor over scope B with state names x, y. -/
def phiB1 : Factor :=
  { «variables» := ["B"], cardinality := [2], values := [5, 6]
  , state_names := [("B", ["x", "y"])] }

/-- Fixture: a factor over scope B with state names u, w, differing from
`phiB1` on the shared variable. -/
def phiB2 : Factor :=
  { «variables» := ["B"], cardinality := [2], values := [7, 8]
  , state_names := [("B", ["u", "w"])] }

/-- C5: factors sharing a variable with differing state-name lists cause no
error in `factor_sum_product`; the output factor's state names for the
shared variable are exactly those of the last factor in the input list
containing it (the later entry silently overwrites the earlier one in the
merge). -/
theorem sum_product_state_names_last_wins (output : List Var)
    (rep : ConcreteType) (fs : List Factor)
    (hwf : ∀ f ∈ fs, f.wf) (hcons : cardsConsistent fs)
    (hnd : output.Nodup) (hsub : ∀ v ∈ output, ∃ f ∈ fs, v ∈ f.«variables»)
    {v : Var} (hv : v ∈ output)
    (_hdiff : ∃ f1 ∈ fs, ∃ f2 ∈ fs,
      (sLookup f1.state_names v).isSome = true ∧
      (sLookup f2.state_names v).isSome = true ∧
      sLookup f1.state_names v ≠ sLookup f2.state_names v) :
    ∃ F, factor_sum_product output (fs.map (PyObj.factor rep)) = Except.ok F ∧
      sLookup F.state_names v = lastNames fs v := by
  refine ⟨_, fsp_ok output rep fs hwf hcons hnd hsub, ?_⟩
  show sLookup (output.map (fun w => (w, (lastNames fs w).getD []))) v =
    lastNames fs v
  rw [sLookup_map_out output _ hv]
  have hsome : (lastNames fs v).isSome = true := by
    rcases hsub v hv with ⟨f, hf, hvf⟩
    rcases hwf f hf with ⟨_, _, _, hkeys, _⟩
    rcases List.mem_map.mp (hkeys ▸ hvf) with ⟨p, hp, hpv⟩
    exact lastNames_isSome f hf ⟨p, hp, hpv⟩
  rcases Option.isSome_iff_exists.mp hsome with ⟨names, hn⟩
  rw [hn]
  rfl

/-- Witness for C5: two factors over the shared variable B with differing
state-name lists x, y versus u, w; the call succeeds and the output carries
the second factor's names u, w, which are also the last containing
factor's. -/
theorem sum_product_state_names_last_wins_witness :
    ((∀ f ∈ [phiB1, phiB2], f.wf) ∧ cardsConsistent [phiB1, phiB2] ∧
      (["B"] : List Var).Nodup ∧
      (∀ v ∈ ["B"], ∃ f ∈ [phiB1, phiB2], v ∈ f.«variables») ∧
      ("B" : Var) ∈ ["B"] ∧
      (∃ f1 ∈ [phiB1, phiB2], ∃ f2 ∈ [phiB1, phiB2],
        (sLookup f1.state_names "B").isSome = true ∧
        (sLookup f2.state_names "B").isSome = true ∧
        sLookup f1.state_names "B" ≠ sLookup f2.state_names "B")) ∧
    (∃ F, factor_sum_product ["B"]
        ([phiB1, phiB2].map (PyObj.factor ConcreteType.discreteFactor)) =
        Except.ok F ∧
      sLookup F.state_names "B" = lastNames [phiB1, phiB2] "B") ∧
    lastNames [phiB1, phiB2] "B" = some ["u", "w"] ∧
    factor_sum_product ["B"] [PyObj.factor ConcreteType.discreteFactor phiB1,
        PyObj.factor ConcreteType.discreteFactor phiB2] =
      Except.ok
        { «variables» := ["B"], cardinality := [2], values := [35, 48]
        , state_names := [("B", ["u", "w"])] } :=
  ⟨⟨by decide, by decide, by decide, by decide, by decide, by decide⟩,
   sum_product_state_names_last_wins ["B"] ConcreteType.discreteFactor
     [phiB1, phiB2] (by decide) (by decide) (by decide) (by decide)
     (v := "B") (by decide) (by decide),
   by decide,
   by with_unfolding_all decide⟩

/-! ### Sum-product at the full union of scopes (C3) -/

/-- Runtime type of every instance of a concrete factor class. -/
def repType : ConcreteType → PyType
  | ConcreteType.discreteFactor => PyType.discreteFactorT
  | ConcreteType.tabularCPD => PyType.tabularCPDT

theorem typeOf_factor (rep : ConcreteType) (f : Factor) :
    typeOf (PyObj.factor rep f) = repType rep := by
  cases rep <;> rfl

theorem dedup_replicate_succ {α : Type} [DecidableEq α] (t : α) :
    ∀ n : Nat, (List.replicate (n + 1) t).dedup = [t] := by
  intro n
  induction n with
  | zero => simp
  | succ m ih =>
      rw [List.replicate_succ, List.dedup_cons_of_mem (by simp [List.mem_replicate]), ih]

theorem scopeCard_pair (f1 f2 : Factor) :
    scopeCard [f1, f2] = pairCard f1 f2 := by
  funext v
  unfold scopeCard pairCard
  simp only [List.flatMap_cons, List.flatMap_nil, List.append_nil]

theorem hiddenVars_union_nil (f1 f2 : Factor) :
    hiddenVars [f1, f2] (orderedUnion f1.«variables» f2.«variables») = [] := by
  unfold hiddenVars
  rw [List.filter_eq_nil_iff]
  intro v hv
  rw [mem_dedupFirst] at hv
  rcases List.mem_flatMap.mp hv with ⟨f, hf, hvf⟩
  simp only [decide_eq_true_eq, Decidable.not_not]
  rcases List.mem_cons.mp hf with rfl | hf2
  · exact mem_orderedUnion.mpr (Or.inl hvf)
  · rcases List.mem_singleton.mp hf2 with rfl
    exact mem_orderedUnion.mpr (Or.inr hvf)

theorem semSumProduct_pair_union (f1 f2 : Factor) (a : Var → Nat) :
    semSumProduct [f1, f2] (orderedUnion f1.«variables» f2.«variables») a =
      f1.valueAt a * f2.valueAt a := by
  unfold semSumProduct
  rw [hiddenVars_union_nil]
  simp only [List.map_nil, assignmentsOf, List.map_cons, List.sum_cons,
    List.sum_nil, List.prod_cons, List.prod_nil, add_zero, mul_one]
  have e1 : f1.valueAt (fun v =>
      if v ∈ orderedUnion f1.«variables» f2.«variables» then a v else 0) =
      f1.valueAt a := by
    refine Factor.valueAt_congr f1 ?_
    intro v hv
    rw [if_pos (mem_orderedUnion.mpr (Or.inl hv))]
  have e2 : f2.valueAt (fun v =>
      if v ∈ orderedUnion f1.«variables» f2.«variables» then a v else 0) =
      f2.valueAt a := by
    refine Factor.valueAt_congr f2 ?_
    intro v hv
    rw [if_pos (mem_orderedUnion.mpr (Or.inr hv))]
  rw [e1, e2]

/-- C3: when the requested output scope is the ordered union of the two
operand scopes (nothing is marginalized), `factor_sum_product` and
`factor_product` return factors with the same scope, the same cardinality
and the same dense value array. -/
theorem sum_product_at_union_eq_product (rep : ConcreteType) (f1 f2 : Factor)
    (hwf1 : f1.wf) (hwf2 : f2.wf) (hcons : cardsConsistent [f1, f2]) :
    ∃ F G,
      factor_sum_product (orderedUnion f1.«variables» f2.«variables»)
        [PyObj.factor rep f1, PyObj.factor rep f2] = Except.ok F ∧
      factor_product [PyObj.factor rep f1, PyObj.factor rep f2] =
        Except.ok G ∧
      F.«variables» = G.«variables» ∧ F.cardinality = G.cardinality ∧
      F.values = G.values := by
  have hwf : ∀ f ∈ [f1, f2], f.wf := by
    intro f hf
    rcases List.mem_cons.mp hf with rfl | hf2
    · exact hwf1
    · rcases List.mem_singleton.mp hf2 with rfl
      exact hwf2
  have hnd : (orderedUnion f1.«variables» f2.«variables»).Nodup :=
    nodup_orderedUnion hwf1.1 hwf2.1
  have hsub : ∀ v ∈ orderedUnion f1.«variables» f2.«variables»,
      ∃ f ∈ [f1, f2], v ∈ f.«variables» := by
    intro v hv
    rcases mem_orderedUnion.mp hv with h | h
    · exact ⟨f1, List.mem_cons_self _ _, h⟩
    · exact ⟨f2, List.mem_cons_of_mem _ (List.mem_singleton.mpr rfl), h⟩
  have hprod : factor_product [PyObj.factor rep f1, PyObj.factor rep f2] =
      Except.ok (factorMul f1 f2) := by
    unfold factor_product
    rw [if_neg (by simp [isBaseFactor])]
    rw [if_neg (by
      simp only [List.map_cons, List.map_nil, typeOf_factor]
      rw [show ([repType rep, repType rep] : List PyType) =
        List.replicate (1 + 1) (repType rep) by rfl]
      rw [dedup_replicate_succ]
      simp)]
    simp only [asFactors_cons_factor, asFactors_nil]
    rfl
  refine ⟨_, factorMul f1 f2,
    fsp_ok (orderedUnion f1.«variables» f2.«variables») rep [f1, f2]
      hwf hcons hnd hsub, hprod, rfl, ?_, ?_⟩
  · show (orderedUnion f1.«variables» f2.«variables»).map (scopeCard [f1, f2]) =
      (factorMul f1 f2).cardinality
    rw [scopeCard_pair]
    rfl
  · show (assignmentsOf
        (outScopePairs [f1, f2] (orderedUnion f1.«variables» f2.«variables»))).map
        (fun aout => semSumProduct [f1, f2]
          (orderedUnion f1.«variables» f2.«variables») aout) =
      (factorMul f1 f2).values
    have hvals : (factorMul f1 f2).values =
        (assignmentsOf ((orderedUnion f1.«variables» f2.«variables»).map
          (fun v => (v, pairCard f1 f2 v)))).map
          (fun b => f1.valueAt b * f2.valueAt b) := by
      unfold factorMul combineOp
      dsimp only
      rw [zip_map_self]
    rw [hvals]
    have hpairs : outScopePairs [f1, f2]
        (orderedUnion f1.«variables» f2.«variables») =
        (orderedUnion f1.«variables» f2.«variables»).map
          (fun v => (v, pairCard f1 f2 v)) := by
      unfold outScopePairs
      rw [scopeCard_pair]
    rw [hpairs]
    refine map_congr_mem _ _ _ ?_
    intro b _
    exact semSumProduct_pair_union f1 f2 b

/-- Witness for C3 at two concrete overlapping factors: both calls succeed
and agree on scope, cardinality and values. -/
theorem sum_product_at_union_eq_product_witness :
    (phiAB.wf ∧ phiA2.wf ∧ cardsConsistent [phiAB, phiA2]) ∧
    (∃ F G,
      factor_sum_product (orderedUnion phiAB.«variables» phiA2.«variables»)
        [PyObj.factor ConcreteType.discreteFactor phiAB,
         PyObj.factor ConcreteType.discreteFactor phiA2] = Except.ok F ∧
      factor_product [PyObj.factor ConcreteType.discreteFactor phiAB,
         PyObj.factor ConcreteType.discreteFactor phiA2] = Except.ok G ∧
      F.«variables» = G.«variables» ∧ F.cardinality = G.cardinality ∧
      F.values = G.values) :=
  ⟨⟨by decide, by decide, by decide⟩,
   sum_product_at_union_eq_product ConcreteType.discreteFactor phiAB phiA2
     (by decide) (by decide) (by decide)⟩

/-! ### Log-domain sum (C9) -/

/-- Union scope of the factor list paired with the cardinality each
variable carries there. -/
def jointPairs (fs : List Factor) : List (Var × Nat) :=
  (dedupFirst (fs.flatMap Factor.«variables»)).map (fun v => (v, scopeCard fs v))

theorem vcPairs_subset_jointPairs {fs : List Factor}
    (hcons : cardsConsistent fs) {g : Factor} (hg : g ∈ fs) :
    ∀ p ∈ g.vcPairs, p ∈ jointPairs fs := by
  rintro ⟨v, c⟩ hp
  have hvmem : v ∈ g.«variables» := (List.of_mem_zip hp).1
  have hvj : v ∈ dedupFirst (fs.flatMap Factor.«variables») :=
    mem_dedupFirst.mpr (List.mem_flatMap.mpr ⟨g, hg, hvmem⟩)
  have hcard : scopeCard fs v = c := by
    have hsome : ((fs.flatMap Factor.vcPairs).find? (fun p => p.1 == v)).isSome :=
      List.find?_isSome.mpr ⟨(v, c), List.mem_flatMap.mpr ⟨g, hg, hp⟩, by simp⟩
    rcases Option.isSome_iff_exists.mp hsome with ⟨q, hq⟩
    have hqv : q.1 = v := by simpa using List.find?_some hq
    rcases List.mem_flatMap.mp (List.mem_of_find?_eq_some hq) with ⟨f, hf, hqf⟩
    have hqc : q.2 = c := hcons f hf g hg q hqf (v, c) hp (by rw [hqv])
    unfold scopeCard
    rw [hq]
    exact hqc
  exact List.mem_map.mpr ⟨v, hvj, by rw [hcard]⟩

theorem combineOp_variables (op : Val → Val → Val) (f1 f2 : Factor) :
    (combineOp op f1 f2).«variables» =
      orderedUnion f1.«variables» f2.«variables» := rfl

theorem combineOp_cardlen (op : Val → Val → Val) (f1 f2 : Factor) :
    (combineOp op f1 f2).cardinality.length =
      (combineOp op f1 f2).«variables».length := by
  unfold combineOp
  dsimp only
  rw [List.length_map]

theorem combineOp_vcPairs (op : Val → Val → Val) (f1 f2 : Factor) :
    (combineOp op f1 f2).vcPairs =
      (orderedUnion f1.«variables» f2.«variables»).map
        (fun v => (v, pairCard f1 f2 v)) := by
  unfold Factor.vcPairs combineOp
  dsimp only
  rw [zip_map_self]

theorem pairCard_mem {f1 f2 : Factor} {v : Var}
    (h1 : f1.cardinality.length = f1.«variables».length)
    (h2 : f2.cardinality.length = f2.«variables».length)
    (hv : v ∈ orderedUnion f1.«variables» f2.«variables») :
    (v, pairCard f1 f2 v) ∈ f1.vcPairs ++ f2.vcPairs := by
  have hex : ∃ c, (v, c) ∈ f1.vcPairs ++ f2.vcPairs := by
    rcases mem_orderedUnion.mp hv with h | h
    · rcases exists_zip_pair h1 h with ⟨c, hc⟩
      exact ⟨c, List.mem_append_left _ hc⟩
    · rcases exists_zip_pair h2 h with ⟨c, hc⟩
      exact ⟨c, List.mem_append_right _ hc⟩
  rcases hex with ⟨c, hc⟩
  have hsome : ((f1.vcPairs ++ f2.vcPairs).find? (fun p => p.1 == v)).isSome :=
    List.find?_isSome.mpr ⟨(v, c), hc, by simp⟩
  rcases Option.isSome_iff_exists.mp hsome with ⟨q, hq⟩
  have hqmem := List.mem_of_find?_eq_some hq
  have hqv : q.1 = v := by simpa using List.find?_some hq
  have hpc : pairCard f1 f2 v = q.2 := by
    unfold pairCard
    rw [hq]
    rfl
  rw [hpc, ← hqv]
  exact hqmem

theorem valueAt_combineOp (op : Val → Val → Val) (f1 f2 : Factor)
    {a : Var → Nat}
    (hb : boundedOn ((orderedUnion f1.«variables» f2.«variables»).map
      (fun v => (v, pairCard f1 f2 v))) a) :
    (combineOp op f1 f2).valueAt a = op (f1.valueAt a) (f2.valueAt a) := by
  have hvals : (combineOp op f1 f2).values =
      (assignmentsOf ((orderedUnion f1.«variables» f2.«variables»).map
        (fun v => (v, pairCard f1 f2 v)))).map
        (fun b => op (f1.valueAt b) (f2.valueAt b)) := by
    unfold combineOp
    dsimp only
    rw [zip_map_self]
  unfold Factor.valueAt
  rw [hvals, combineOp_vcPairs]
  refine getD_map_assignmentsOf _ _ a hb ?_
  intro a1 a2 h12
  have e1 : f1.valueAt a1 = f1.valueAt a2 :=
    Factor.valueAt_congr f1 (fun v hv => h12 (v, pairCard f1 f2 v)
      (List.mem_map.mpr ⟨v, mem_orderedUnion.mpr (Or.inl hv), rfl⟩))
  have e2 : f2.valueAt a1 = f2.valueAt a2 :=
    Factor.valueAt_congr f2 (fun v hv => h12 (v, pairCard f1 f2 v)
      (List.mem_map.mpr ⟨v, mem_orderedUnion.mpr (Or.inr hv), rfl⟩))
  rw [e1, e2]

theorem foldl_combineOp_valueAt (op : Val → Val → Val)
    (P : List (Var × Nat)) (a : Var → Nat) (hb : boundedOn P a) :
    ∀ (gs : List Factor) (acc : Factor),
      acc.cardinality.length = acc.«variables».length →
      (∀ p ∈ acc.vcPairs, p ∈ P) →
      (∀ g ∈ gs, g.cardinality.length = g.«variables».length ∧
        ∀ p ∈ g.vcPairs, p ∈ P) →
      (gs.foldl (combineOp op) acc).valueAt a =
        gs.foldl (fun x g => op x (g.valueAt a)) (acc.valueAt a) := by
  intro gs
  induction gs with
  | nil => intro acc _ _ _; rfl
  | cons g gs ih =>
      intro acc hlen hsubP hgs
      rw [List.foldl_cons, List.foldl_cons]
      have hg := hgs g (List.mem_cons_self _ _)
      have hsubC : ∀ p ∈ (combineOp op acc g).vcPairs, p ∈ P := by
        intro p hp
        rw [combineOp_vcPairs] at hp
        rcases List.mem_map.mp hp with ⟨v, hv, rfl⟩
        have hmem : (v, pairCard acc g v) ∈ acc.vcPairs ++ g.vcPairs :=
          pairCard_mem hlen hg.1 hv
        rcases List.mem_append.mp hmem with h | h
        · exact hsubP _ h
        · exact hg.2 _ h
      have hbc : boundedOn ((orderedUnion acc.«variables» g.«variables»).map
          (fun v => (v, pairCard acc g v))) a := by
        intro p hp
        refine hb p ?_
        rw [← combineOp_vcPairs op acc g] at hp
        exact hsubC p hp
      rw [ih (combineOp op acc g) (combineOp_cardlen op acc g) hsubC
        (fun g2 hg2 => hgs g2 (List.mem_cons_of_mem _ hg2)),
        valueAt_combineOp op acc g hbc]

theorem foldl_combineOp_scope (op : Val → Val → Val) :
    ∀ (gs : List Factor) (acc : Factor),
      (∀ v, v ∈ (gs.foldl (combineOp op) acc).«variables» ↔
        v ∈ acc.«variables» ∨ ∃ g ∈ gs, v ∈ g.«variables») ∧
      (acc.«variables».Nodup → (∀ g ∈ gs, g.«variables».Nodup) →
        (gs.foldl (combineOp op) acc).«variables».Nodup) := by
  intro gs
  induction gs with
  | nil =>
      intro acc
      constructor
      · intro v
        simp
      · intro h _
        exact h
  | cons g gs ih =>
      intro acc
      rw [List.foldl_cons]
      rcases ih (combineOp op acc g) with ⟨hmem, hnd⟩
      constructor
      · intro v
        rw [hmem v]
        have hiff : v ∈ (combineOp op acc g).«variables» ↔
            v ∈ acc.«variables» ∨ v ∈ g.«variables» := by
          rw [combineOp_variables]
          exact mem_orderedUnion
        rw [hiff]
        constructor
        · rintro ((h | h) | ⟨g2, hg2, hvg2⟩)
          · exact Or.inl h
          · exact Or.inr ⟨g, List.mem_cons_self _ _, h⟩
          · exact Or.inr ⟨g2, List.mem_cons_of_mem _ hg2, hvg2⟩
        · rintro (h | ⟨g2, hg2, hvg2⟩)
          · exact Or.inl (Or.inl h)
          · rcases List.mem_cons.mp hg2 with rfl | h2
            · exact Or.inl (Or.inr hvg2)
            · exact Or.inr ⟨g2, h2, hvg2⟩
      · intro hacc hgs
        refine hnd ?_ (fun g2 hg2 => hgs g2 (List.mem_cons_of_mem _ hg2))
        rw [combineOp_variables]
        exact nodup_orderedUnion hacc (hgs g (List.mem_cons_self _ _))

theorem valueAt_logT {logFn : Val → Val} {f : Factor} (hwf : f.wf)
    {a : Var → Nat} (hb : boundedOn f.vcPairs a) :
    (Factor.logT logFn f).valueAt a = logFn (f.valueAt a) := by
  rcases hwf with ⟨_, hlen, hvlen, _, _⟩
  have hlt : flatIdx f.vcPairs a < f.values.length := by
    have h1 := flatIdx_lt_prod hb
    rw [Factor.vcPairs, List.map_snd_zip _ _ (le_of_eq hlen)] at h1
    rw [hvlen]
    exact h1
  unfold Factor.valueAt Factor.logT
  exact getD_map_of_lt logFn f.values 0 0 hlt

theorem foldl_add_map {β : Type} (h : β → Val) :
    ∀ (l : List β) (x : Val),
      l.foldl (fun acc y => acc + h y) x = x + (l.map h).sum := by
  intro l
  induction l with
  | nil => intro x; simp
  | cons y ys ih =>
      intro x
      rw [List.foldl_cons, ih, List.map_cons, List.sum_cons, add_assoc]

theorem factor_log_sum_on_factors (logFn : Val → Val) (rep : ConcreteType)
    (gs : List Factor) (hne : gs ≠ []) :
    factor_log_sum logFn (gs.map (PyObj.factor rep)) =
      match gs.map (Factor.logT logFn) with
      | [] => Except.error (PyError.notImplementedError
          "All the args are expected to be instances of the same factor class.")
      | [g] => Except.ok g.copy
      | g :: g2 :: rest => Except.ok ((g2 :: rest).foldl factorAdd g) := by
  unfold factor_log_sum
  rw [if_neg (not_not_intro (by
    intro o ho
    rcases List.mem_map.mp ho with ⟨f, _, rfl⟩
    rfl))]
  rw [if_neg (not_not_intro ?hlen1)]
  case hlen1 =>
    cases gs with
    | nil => exact absurd rfl hne
    | cons f rest =>
        rw [List.map_map]
        have hconst : ((f :: rest).map (typeOf ∘ PyObj.factor rep)) =
            List.replicate (f :: rest).length (repType rep) := by
          have : (typeOf ∘ PyObj.factor rep) =
              (Function.const Factor (repType rep)) :=
            funext (fun f2 => typeOf_factor rep f2)
          rw [this, List.map_const]
        rw [hconst, List.length_cons, dedup_replicate_succ]
        rfl
  rw [asFactors_map_factor]
  rfl

/-- C9: on a non-empty list of same-class factors, `factor_log_sum` first
produces a fresh log-transformed copy of every operand (the `log` method
with `inplace=False` returns the new transform and leaves the receiver
unchanged) and returns the elementwise sum of these copies aligned on the
union of the operand scopes: the result's scope is that union and its
value at every in-range assignment is the sum of the log-transformed
operand values; a single operand yields a copy of its log transform. -/
theorem log_sum_is_sum_of_log_copies (logFn : Val → Val) (rep : ConcreteType)
    (fs : List Factor) (hne : fs ≠ [])
    (hwf : ∀ f ∈ fs, f.wf) (hcons : cardsConsistent fs) :
    (∀ f : Factor,
      (Factor.logMeth logFn f false).1 = some (Factor.logT logFn f) ∧
      (Factor.logMeth logFn f false).2 = f) ∧
    (∀ f : Factor, fs = [f] →
      factor_log_sum logFn (fs.map (PyObj.factor rep)) =
        Except.ok ((Factor.logT logFn f).copy)) ∧
    ∃ F, factor_log_sum logFn (fs.map (PyObj.factor rep)) = Except.ok F ∧
      F.«variables».Nodup ∧
      (∀ v : Var, v ∈ F.«variables» ↔ ∃ f ∈ fs, v ∈ f.«variables») ∧
      ∀ a : Var → Nat, boundedOn (jointPairs fs) a →
        F.valueAt a = (fs.map (fun f => logFn (f.valueAt a))).sum := by
  refine ⟨fun f => ⟨rfl, rfl⟩, ?_, ?_⟩
  · intro f heq
    subst heq
    rw [factor_log_sum_on_factors logFn rep [f] (by simp)]
    rfl
  · cases fs with
    | nil => exact absurd rfl hne
    | cons f rest =>
      have hbnd : ∀ a : Var → Nat, boundedOn (jointPairs (f :: rest)) a →
          ∀ g ∈ (f :: rest), boundedOn g.vcPairs a := by
        intro a hb g hg p hp
        exact hb p (vcPairs_subset_jointPairs hcons hg p hp)
      cases rest with
      | nil =>
          refine ⟨Factor.logT logFn f, ?_, ?_, ?_, ?_⟩
          · rw [factor_log_sum_on_factors logFn rep [f] (by simp)]
            rfl
          · exact (hwf f (List.mem_cons_self _ _)).1
          · intro v
            constructor
            · intro hv
              exact ⟨f, List.mem_cons_self _ _, hv⟩
            · rintro ⟨g, hg, hvg⟩
              rcases List.mem_singleton.mp hg with rfl
              exact hvg
          · intro a hb
            rw [valueAt_logT (hwf f (List.mem_cons_self _ _))
              (hbnd a hb f (List.mem_cons_self _ _))]
            simp
      | cons g2 rest2 =>
          have hfmem : f ∈ (f :: g2 :: rest2) := List.mem_cons_self _ _
          refine ⟨((g2 :: rest2).map (Factor.logT logFn)).foldl factorAdd
            (Factor.logT logFn f), ?_, ?_, ?_, ?_⟩
          · rw [factor_log_sum_on_factors logFn rep (f :: g2 :: rest2) (by simp)]
            rfl
          · -- scope is nodup
            rw [show factorAdd = combineOp (fun x y => x + y) from rfl]
            refine (foldl_combineOp_scope (fun x y => x + y)
              ((g2 :: rest2).map (Factor.logT logFn)) (Factor.logT logFn f)).2
              (hwf f hfmem).1 ?_
            intro g' hg'
            rcases List.mem_map.mp hg' with ⟨g, hg, rfl⟩
            exact (hwf g (List.mem_cons_of_mem _ hg)).1
          · intro v
            rw [show factorAdd = combineOp (fun x y => x + y) from rfl]
            rw [(foldl_combineOp_scope (fun x y => x + y)
              ((g2 :: rest2).map (Factor.logT logFn)) (Factor.logT logFn f)).1 v]
            constructor
            · rintro (h | ⟨g', hg', hvg'⟩)
              · exact ⟨f, hfmem, h⟩
              · rcases List.mem_map.mp hg' with ⟨g, hg, rfl⟩
                exact ⟨g, List.mem_cons_of_mem _ hg, hvg'⟩
            · rintro ⟨g, hg, hvg⟩
              rcases List.mem_cons.mp hg with rfl | hg2
              · exact Or.inl hvg
              · exact Or.inr ⟨Factor.logT logFn g,
                  List.mem_map.mpr ⟨g, hg2, rfl⟩, hvg⟩
          · intro a hb
            have hstep := foldl_combineOp_valueAt (fun x y => x + y)
              (jointPairs (f :: g2 :: rest2)) a hb
              ((g2 :: rest2).map (Factor.logT logFn)) (Factor.logT logFn f)
              (hwf f hfmem).2.1
              (fun p hp => vcPairs_subset_jointPairs hcons hfmem p hp)
              (by
                intro g' hg'
                rcases List.mem_map.mp hg' with ⟨g, hg, rfl⟩
                refine ⟨(hwf g (List.mem_cons_of_mem _ hg)).2.1, ?_⟩
                intro p hp
                exact vcPairs_subset_jointPairs hcons
                  (List.mem_cons_of_mem _ hg) p hp)
            calc (((g2 :: rest2).map (Factor.logT logFn)).foldl factorAdd
                  (Factor.logT logFn f)).valueAt a
                = ((g2 :: rest2).map (Factor.logT logFn)).foldl
                    (fun x g => x + g.valueAt a)
                    ((Factor.logT logFn f).valueAt a) := hstep
              _ = (Factor.logT logFn f).valueAt a +
                    (((g2 :: rest2).map (Factor.logT logFn)).map
                      (fun g => g.valueAt a)).sum :=
                  foldl_add_map (fun g : Factor => g.valueAt a) _ _
              _ = logFn (f.valueAt a) +
                    ((g2 :: rest2).map (fun g => logFn (g.valueAt a))).sum := by
                  rw [valueAt_logT (hwf f hfmem) (hbnd a hb f hfmem),
                    List.map_map]
                  congr 1
                  exact congrArg List.sum (map_congr_mem _ _ _
                    (fun g hg => valueAt_logT (hwf g (List.mem_cons_of_mem _ hg))
                      (hbnd a hb g (List.mem_cons_of_mem _ hg))))
              _ = ((f :: g2 :: rest2).map (fun g => logFn (g.valueAt a))).sum := by
                  simp [List.sum_cons]

/-- Witness for C9 at two concrete factors and a concrete transform: the
call succeeds, and at the shifted transform the result is the concrete
elementwise sum of the two transformed factors aligned on the union scope
A, B. -/
theorem log_sum_is_sum_of_log_copies_witness :
    (([phiAB, phiA2] : List Factor) ≠ [] ∧ (∀ f ∈ [phiAB, phiA2], f.wf) ∧
      cardsConsistent [phiAB, phiA2]) ∧
    ((∀ f : Factor,
      (Factor.logMeth (fun x => x - 100) f false).1 =
        some (Factor.logT (fun x => x - 100) f) ∧
      (Factor.logMeth (fun x => x - 100) f false).2 = f) ∧
    (∀ f : Factor, ([phiAB, phiA2] : List Factor) = [f] →
      factor_log_sum (fun x => x - 100)
          ([phiAB, phiA2].map (PyObj.factor ConcreteType.discreteFactor)) =
        Except.ok ((Factor.logT (fun x => x - 100) f).copy)) ∧
    ∃ F, factor_log_sum (fun x => x - 100)
        ([phiAB, phiA2].map (PyObj.factor ConcreteType.discreteFactor)) =
        Except.ok F ∧
      F.«variables».Nodup ∧
      (∀ v : Var, v ∈ F.«variables» ↔ ∃ f ∈ [phiAB, phiA2], v ∈ f.«variables») ∧
      ∀ a : Var → Nat, boundedOn (jointPairs [phiAB, phiA2]) a →
        F.valueAt a =
          ([phiAB, phiA2].map (fun f => (fun x => x - 100) (f.valueAt a))).sum) ∧
    factor_log_sum (fun x => x - 100)
        [PyObj.factor ConcreteType.discreteFactor phiAB,
         PyObj.factor ConcreteType.discreteFactor phiA2] =
      Except.ok
        { «variables» := ["A", "B"], cardinality := [2, 2]
        , values := [-194, -193, -190, -189]
        , state_names := [("B", ["b0", "b1"]), ("A", ["a0", "a1"])] } :=
  ⟨⟨by decide, by decide, by decide⟩,
   log_sum_is_sum_of_log_copies (fun x => x - 100) ConcreteType.discreteFactor
     [phiAB, phiA2] (by decide) (by decide) (by decide),
   by with_unfolding_all decide⟩

end Pgmpy
